import Mathlib

/-!
Shallow embedding of the observable-store layer of the `lightning-terminal`
front end: the `NodeStore` class (`src/app/src/store/stores/nodeStore.ts`)
and the store context provider / hooks (`StoreProvider`, `useStore`,
`useActions`).

Asynchronous RPC actions are embedded as pure state transformers taking the
outcome of each awaited RPC call as an `Except` argument; MobX observable
fields become fields of an explicit state record; `Big.js` decimal balances
are embedded as integers (all amounts in play are integral satoshi values);
side effects on external collaborators (clipboard, notifications) are
reified as an explicit effect list.
-/

namespace LNT

/-- Modelled from the spec: `ellipseInside` from `util/strings` is not among
the examined sources; per the spec it shortens a string "to 12 chars with
ellipses inside", keeping the first 6 and the last 6 characters and leaving
shorter strings unchanged. -/
def ellipseInside (text : String) : String :=
  if text.length ≤ 12 then text
  else text.take 6 ++ "..." ++ text.drop (text.length - 6)

/-- Character-level embedding of the JavaScript `String.prototype.split` with
a single-character separator, as used by `urlLabel` (`this.url.split('@')`).
`splitChar c l` splits `l` at every occurrence of `c`, keeping empty
segments, and always returns at least one segment. -/
def splitChar (c : Char) : List Char → List (List Char)
  | [] => [[]]
  | x :: xs =>
    if x = c then [] :: splitChar c xs
    else
      match splitChar c xs with
      | [] => [[x]]
      | h :: t => (x :: h) :: t

/-- The `Wallet` model: channel and wallet balances. -/
structure Wallet where
  channelBalance : Int := 0
  walletBalance : Int := 0
  deriving Repr, DecidableEq

/-- The observable state of `NodeStore`, together with the private
`_knownTxns` dedup list. `chain` and `network` are strings at runtime in the
source (TypeScript string-literal unions, assigned by unchecked cast from
the RPC response). -/
structure NodeStoreState where
  knownTxns : List String := []
  pubkey : String := ""
  «alias» : String := ""
  url : String := ""
  chain : String := "bitcoin"
  network : String := "mainnet"
  wallet : Wallet := {}
  deriving Repr, DecidableEq

/-- One element of `GetInfoResponse.chainsList`. -/
structure ChainInfo where
  chain : String
  network : String
  deriving Repr, DecidableEq

/-- The shape of the `getInfo` RPC response consumed by `fetchInfo`.
Proto3 string fields are never `undefined` in the generated object: a field
absent on the wire surfaces as the empty string, and absent repeated fields
surface as empty lists. -/
structure GetInfoResponse where
  identityPubkey : String
  «alias» : String
  chainsList : List ChainInfo
  urisList : List String
  deriving Repr, DecidableEq

/-- The shape of the `channelBalance` RPC response. -/
structure ChannelBalanceResponse where
  balance : Int
  deriving Repr, DecidableEq

/-- The shape of the `walletBalance` RPC response. -/
structure WalletBalanceResponse where
  totalBalance : Int
  deriving Repr, DecidableEq

/-- The body of the `runInAction('getInfoContinuation', ...)` batch in
`fetchInfo`: `pubkey` and `alias` are assigned unconditionally from the
response; `chain`/`network` only when `chainsList` is non-empty;
`url` only when `urisList` is non-empty. -/
def fetchInfoSuccess (s : NodeStoreState) (info : GetInfoResponse) : NodeStoreState :=
  let s1 := { s with pubkey := info.identityPubkey, «alias» := info.«alias» }
  let s2 :=
    match info.chainsList with
    | c :: _ => { s1 with chain := c.chain, network := c.network }
    | [] => s1
  match info.urisList with
  | u :: _ => { s2 with url := u }
  | [] => s2

/-- `NodeStore.fetchInfo`, with the awaited RPC outcome passed explicitly.
On a rejected RPC the catch block only notifies (`uiStore.handleError`) and
the state is untouched. -/
def fetchInfo (s : NodeStoreState) (result : Except String GetInfoResponse) :
    NodeStoreState :=
  match result with
  | Except.ok info => fetchInfoSuccess s info
  | Except.error _ => s

/-- `NodeStore.fetchBalances`, with the outcomes of the two sequentially
awaited RPCs passed explicitly (`offChain` for `channelBalance`, issued and
awaited first; `onChain` for `walletBalance`). A rejection at either await
jumps to the catch block before the `runInAction` batch, so the state is
untouched; on double success both wallet fields are overwritten in one
batch. -/
def fetchBalances (s : NodeStoreState)
    (offChain : Except String ChannelBalanceResponse)
    (onChain : Except String WalletBalanceResponse) : NodeStoreState :=
  match offChain with
  | Except.error _ => s
  | Except.ok off =>
    match onChain with
    | Except.error _ => s
    | Except.ok onc =>
      { s with
        wallet := { channelBalance := off.balance, walletBalance := onc.totalBalance } }

/-- A transaction event as consumed by `onTransaction`
(`Transaction.AsObject` restricted to the fields the store reads). -/
structure Transaction where
  txHash : String
  amount : Int
  deriving Repr, DecidableEq

/-- `NodeStore.onTransaction`: if the hash is already known, a no-op;
otherwise the hash is pushed onto `_knownTxns` and the amount added to
`wallet.walletBalance`. -/
def onTransaction (s : NodeStoreState) (tx : Transaction) : NodeStoreState :=
  if s.knownTxns.contains tx.txHash then s
  else
    { s with
      knownTxns := s.knownTxns ++ [tx.txHash],
      wallet := { s.wallet with walletBalance := s.wallet.walletBalance + tx.amount } }

/-- A finite sequence of `onTransaction` calls, applied in order. -/
def applyTxns (s : NodeStoreState) (txs : List Transaction) : NodeStoreState :=
  txs.foldl onTransaction s

/-- The computed property `NodeStore.pubkeyLabel`. -/
def pubkeyLabel (s : NodeStoreState) : String :=
  ellipseInside s.pubkey

/-- The computed property `NodeStore.urlLabel`: empty when `url` is empty;
otherwise destructure `url.split('@')` as `[pubkey, host]`; empty when
`host` is falsy (missing because there is no separator, or the empty
string); otherwise the ellipsed pubkey, `@`, and the host. -/
def urlLabel (s : NodeStoreState) : String :=
  if s.url = "" then ""
  else
    match splitChar '@' s.url.toList with
    | pk :: host :: _ =>
      if host = [] then "" else ellipseInside (String.mk pk) ++ "@" ++ String.mk host
    | _ => ""

/-- The three legal arguments of `NodeStore.copy`. -/
inductive CopyKey where
  | pubkey
  | «alias»
  | url
  deriving Repr, DecidableEq

/-- The string form of a `CopyKey`, as interpolated into the notification
message. -/
def CopyKey.name : CopyKey → String
  | .pubkey => "pubkey"
  | .«alias» => "alias"
  | .url => "url"

/-- The field read `this[key]` performed by `copy`. -/
def copyValue (s : NodeStoreState) : CopyKey → String
  | .pubkey => s.pubkey
  | .«alias» => s.«alias»
  | .url => s.url

/-- Reified side effects on the external collaborators: a clipboard write
(`copyToClipboard`) and a UI notification (`uiStore.notify`). -/
inductive Effect where
  | clipboardWrite (value : String)
  | notify (message detail severity : String)
  deriving Repr, DecidableEq

/-- `NodeStore.copy`: writes the selected field to the clipboard and emits
one success notification; the store state itself is returned unchanged
because the method assigns no field. -/
def copy (s : NodeStoreState) (key : CopyKey) : NodeStoreState × List Effect :=
  (s, [Effect.clipboardWrite (copyValue s key),
       Effect.notify ("Copied " ++ key.name ++ " to clipboard") "" "success"])

/-- Modelled from the spec: lodash `debounce(fn, wait)` with default options
(trailing edge, no leading edge), as used by `fetchBalancesThrottled`. Given
the chronological (non-decreasing) list of times at which the debounced
wrapper is called, returns the times at which the underlying function
actually fires: each call schedules a fire `wait` later, and a further call
arriving strictly before that moment cancels and reschedules it. -/
def debounceFireTimes (wait : Nat) : List Nat → List Nat
  | [] => []
  | [t] => [t + wait]
  | t :: t2 :: rest =>
    if t2 < t + wait then debounceFireTimes wait (t2 :: rest)
    else (t + wait) :: debounceFireTimes wait (t2 :: rest)

/-- `NodeStore.fetchBalancesThrottled = debounce(this.fetchBalances, 2000)`:
the times at which the underlying `fetchBalances` actually runs, for a given
chronological list of call times. -/
def fetchBalancesThrottledFireTimes (calls : List Nat) : List Nat :=
  debounceFireTimes 2000 calls

/-- The aggregate `Store`; only the node sub-store matters for the examined
claims. -/
structure Store where
  node : NodeStoreState := {}
  deriving Repr, DecidableEq

/-- Modelled from the spec: `createActions` (the action-layer factory, not
among the examined sources) derives a stable action object from the given
store; embedded as a record remembering the store it was built from. -/
structure StoreActions where
  boundStore : Store
  deriving Repr, DecidableEq

/-- Modelled from the spec: the action-factory collaborator. -/
def createActions (store : Store) : StoreActions :=
  { boundStore := store }

/-- The value cached in the React context: the `{store, actions}` pair. -/
structure ContextData where
  store : Store
  actions : StoreActions
  deriving Repr, DecidableEq

/-- `StoreProvider`: builds the context value from its props; when `actions`
is omitted it is derived from the store via `createActions`. -/
def storeProvider (store : Store) (actions : Option StoreActions) : ContextData :=
  { store := store, actions := actions.getD (createActions store) }

/-- The `useStore` hook: `useContext` yields `none` exactly when no
`StoreProvider` ancestor supplied a value (the context default is
`undefined`), in which case the hook throws. -/
def useStore (ctx : Option ContextData) : Except String Store :=
  match ctx with
  | none => Except.error "useStore must be used within a StoreProvider."
  | some data => Except.ok data.store

/-- The `useActions` hook, same shape as `useStore`. -/
def useActions (ctx : Option ContextData) : Except String StoreActions :=
  match ctx with
  | none => Except.error "useActions must be used within a StoreProvider."
  | some data => Except.ok data.actions

/-! ### Helper lemmas -/

theorem splitChar_ne_nil (c : Char) (l : List Char) : splitChar c l ≠ [] := by
  cases l with
  | nil => simp [splitChar]
  | cons x xs =>
    simp only [splitChar]
    split
    · simp
    · split
      · simp
      · simp

theorem splitChar_of_not_mem (c : Char) (l : List Char) (h : c ∉ l) :
    splitChar c l = [l] := by
  induction l with
  | nil => rfl
  | cons x xs ih =>
    simp only [List.mem_cons, not_or] at h
    simp only [splitChar, if_neg (Ne.symm h.1), ih h.2]

theorem splitChar_length (c : Char) (l : List Char) :
    (splitChar c l).length = l.count c + 1 := by
  induction l with
  | nil => rfl
  | cons x xs ih =>
    by_cases hx : x = c
    · subst hx
      simp [splitChar, ih, List.count_cons]
    · simp only [splitChar, if_neg hx]
      cases hs : splitChar c xs with
      | nil => exact absurd hs (splitChar_ne_nil c xs)
      | cons h t =>
        rw [hs] at ih
        simp only [List.length_cons] at ih ⊢
        rw [List.count_cons, if_neg (by simpa using hx)]
        omega

theorem onTransaction_of_not_mem (s : NodeStoreState) (tx : Transaction)
    (h : tx.txHash ∉ s.knownTxns) :
    onTransaction s tx =
      { s with
        knownTxns := s.knownTxns ++ [tx.txHash],
        wallet := { s.wallet with
          walletBalance := s.wallet.walletBalance + tx.amount } } := by
  rw [onTransaction, if_neg]
  simpa using h

theorem applyTxns_balance (txs : List Transaction) : ∀ s : NodeStoreState,
    (txs.map Transaction.txHash).Nodup →
    (∀ tx ∈ txs, tx.txHash ∉ s.knownTxns) →
    (applyTxns s txs).wallet.walletBalance
      = s.wallet.walletBalance + (txs.map Transaction.amount).sum := by
  induction txs with
  | nil =>
    intro s _ _
    simp [applyTxns]
  | cons tx rest ih =>
    intro s hnodup hfresh
    have hhead : tx.txHash ∉ s.knownTxns := hfresh tx (List.mem_cons_self _ _)
    have hstep := onTransaction_of_not_mem s tx hhead
    have htail : ∀ tx2 ∈ rest, tx2.txHash ∉ s.knownTxns ++ [tx.txHash] := by
      intro tx2 hm
      rw [List.mem_append]
      rintro (hc | hc)
      · exact hfresh tx2 (List.mem_cons_of_mem _ hm) hc
      · rw [List.mem_singleton] at hc
        have : tx.txHash ∈ rest.map Transaction.txHash :=
          List.mem_map.mpr ⟨tx2, hm, hc⟩
        exact (List.nodup_cons.mp (by simpa using hnodup)).1 this
    have hrest := ih { s with
        knownTxns := s.knownTxns ++ [tx.txHash],
        wallet := { s.wallet with
          walletBalance := s.wallet.walletBalance + tx.amount } }
      (by simpa using (List.nodup_cons.mp (by simpa using hnodup)).2) htail
    calc (applyTxns s (tx :: rest)).wallet.walletBalance
        = (applyTxns (onTransaction s tx) rest).wallet.walletBalance := rfl
      _ = s.wallet.walletBalance + tx.amount + (rest.map Transaction.amount).sum := by
          rw [hstep]; exact hrest
      _ = s.wallet.walletBalance + ((tx :: rest).map Transaction.amount).sum := by
          simp [add_assoc]

theorem debounceFireTimes_mem_ge (w : Nat) : ∀ (t : Nat) (l : List Nat),
    List.Chain' (· ≤ ·) (t :: l) →
    ∀ x ∈ debounceFireTimes w (t :: l), t + w ≤ x := by
  intro t l
  induction l generalizing t with
  | nil =>
    intro _ x hx
    simp only [debounceFireTimes, List.mem_singleton] at hx
    omega
  | cons t2 rest ih =>
    intro hchain x hx
    have hle : t ≤ t2 := (List.chain'_cons.mp hchain).1
    have htail : List.Chain' (· ≤ ·) (t2 :: rest) := (List.chain'_cons.mp hchain).2
    by_cases hw : t2 < t + w
    · simp only [debounceFireTimes, if_pos hw] at hx
      have := ih t2 htail x hx
      omega
    · simp only [debounceFireTimes, if_neg hw, List.mem_cons] at hx
      rcases hx with h | h
      · omega
      · have := ih t2 htail x h
        omega

theorem debounceFireTimes_spacing (w : Nat) (l : List Nat)
    (hsorted : List.Chain' (· ≤ ·) l) :
    List.Chain' (fun a b => a + w ≤ b) (debounceFireTimes w l) := by
  induction l with
  | nil => simp [debounceFireTimes]
  | cons t rest ih =>
    cases rest with
    | nil => simp [debounceFireTimes]
    | cons t2 rest2 =>
      have hle : t ≤ t2 := (List.chain'_cons.mp hsorted).1
      have htail : List.Chain' (· ≤ ·) (t2 :: rest2) := (List.chain'_cons.mp hsorted).2
      by_cases hw : t2 < t + w
      · simp only [debounceFireTimes, if_pos hw]
        exact ih htail
      · simp only [debounceFireTimes, if_neg hw]
        refine List.chain'_cons'.mpr ⟨?_, ih htail⟩
        intro y hy
        have hmem : y ∈ debounceFireTimes w (t2 :: rest2) := List.mem_of_mem_head? hy
        have := debounceFireTimes_mem_ge w t2 rest2 htail y hmem
        omega

theorem urlLabel_of_split (s : NodeStoreState) (pk host : List Char)
    (rest : List (List Char))
    (hsplit : splitChar '@' s.url.toList = pk :: host :: rest) :
    urlLabel s =
      if host = [] then ""
      else ellipseInside (String.mk pk) ++ "@" ++ String.mk host := by
  have hne : s.url ≠ "" := by
    intro hu
    rw [hu] at hsplit
    have hnil : splitChar '@' ("" : String).toList = [[]] := rfl
    rw [hnil] at hsplit
    simp at hsplit
  rw [urlLabel, if_neg hne, hsplit]

/-- A state whose known-transaction list already holds the hash `h`, and a
transaction reusing that hash: both exercise the dedup guard. -/
def preloadedState : NodeStoreState :=
  { knownTxns := ["h"] }

/-- A transaction whose hash is already known to `preloadedState`. -/
def dupTx : Transaction :=
  { txHash := "h", amount := 5 }

/-- The pristine store state (all fields at their declared initial values). -/
def initialState : NodeStoreState :=
  {}

/-! ### Theorems about the claims -/

/-- Claim C1 (counterexample): with prior `pubkey='oldpubkey'`,
`alias='oldalias'`, a `fetchInfo` response carrying
`chainsList=[{chain:'litecoin',network:'testnet'}]`, `urisList=['abc@host:1']`
and absent `identityPubkey`/`alias` (absent proto3 string fields surface as
the empty string) does set `chain`, `network` and `url` as the claim states,
but does NOT keep the prior `pubkey` and `alias`: both are overwritten. -/
theorem fetchInfo_absent_fields_cex :
    (fetchInfo { pubkey := "oldpubkey", «alias» := "oldalias" }
        (Except.ok { identityPubkey := "", «alias» := "",
                     chainsList := [{ chain := "litecoin", network := "testnet" }],
                     urisList := ["abc@host:1"] })).chain = "litecoin" ∧
    (fetchInfo { pubkey := "oldpubkey", «alias» := "oldalias" }
        (Except.ok { identityPubkey := "", «alias» := "",
                     chainsList := [{ chain := "litecoin", network := "testnet" }],
                     urisList := ["abc@host:1"] })).network = "testnet" ∧
    (fetchInfo { pubkey := "oldpubkey", «alias» := "oldalias" }
        (Except.ok { identityPubkey := "", «alias» := "",
                     chainsList := [{ chain := "litecoin", network := "testnet" }],
                     urisList := ["abc@host:1"] })).url = "abc@host:1" ∧
    (fetchInfo { pubkey := "oldpubkey", «alias» := "oldalias" }
        (Except.ok { identityPubkey := "", «alias» := "",
                     chainsList := [{ chain := "litecoin", network := "testnet" }],
                     urisList := ["abc@host:1"] })).pubkey ≠ "oldpubkey" ∧
    (fetchInfo { pubkey := "oldpubkey", «alias» := "oldalias" }
        (Except.ok { identityPubkey := "", «alias» := "",
                     chainsList := [{ chain := "litecoin", network := "testnet" }],
                     urisList := ["abc@host:1"] })).«alias» ≠ "oldalias" := by
  refine ⟨rfl, rfl, rfl, ?_, ?_⟩ <;> decide

/-- Claim C1 (amended): on a successful `fetchInfo`, an absent or empty
`chainsList` leaves `chain`/`network` at their previous values and an absent
or empty `urisList` leaves `url` unchanged, while non-empty lists win with
their first element; `pubkey` and `alias`, however, are always overwritten
with the response's `identityPubkey`/`alias` (the empty string when absent),
not preserved. -/
theorem fetchInfo_update_policy (s : NodeStoreState) (info : GetInfoResponse) :
    (fetchInfo s (Except.ok info)).pubkey = info.identityPubkey ∧
    (fetchInfo s (Except.ok info)).«alias» = info.«alias» ∧
    (fetchInfo s (Except.ok info)).chain =
      (match info.chainsList with
       | [] => s.chain
       | c :: _ => c.chain) ∧
    (fetchInfo s (Except.ok info)).network =
      (match info.chainsList with
       | [] => s.network
       | c :: _ => c.network) ∧
    (fetchInfo s (Except.ok info)).url =
      (match info.urisList with
       | [] => s.url
       | u :: _ => u) := by
  rcases info with ⟨pk, al, cl, ul⟩
  cases cl <;> cases ul <;> simp [fetchInfo, fetchInfoSuccess]

/-- Claim C2 (counterexample): in a state whose known-transaction list
already holds hash `'h'`, calling `onTransaction` twice with a transaction
of hash `'h'` and amount `5` changes `walletBalance` zero times, not exactly
once. -/
theorem onTransaction_twice_cex :
    (onTransaction (onTransaction preloadedState dupTx) dupTx).wallet.walletBalance ≠
      preloadedState.wallet.walletBalance + dupTx.amount := by
  decide

/-- Claim C2 (amended): `onTransaction` is idempotent per transaction hash —
the second identical call is a no-op on the whole state, hence on the wallet
balances — and when `tx.txHash` is not already known the double call changes
`walletBalance` by `tx.amount` exactly once; when the hash is already known
both calls are no-ops. -/
theorem onTransaction_idempotent (s : NodeStoreState) (tx : Transaction) :
    onTransaction (onTransaction s tx) tx = onTransaction s tx ∧
    (tx.txHash ∉ s.knownTxns →
      (onTransaction (onTransaction s tx) tx).wallet.walletBalance
        = s.wallet.walletBalance + tx.amount) := by
  by_cases h : tx.txHash ∈ s.knownTxns
  · have hc : s.knownTxns.contains tx.txHash = true := by simpa using h
    have hinner : onTransaction s tx = s := by
      rw [onTransaction, if_pos hc]
    constructor
    · rw [hinner]
      exact hinner
    · intro hmem
      exact absurd h hmem
  · have hstep := onTransaction_of_not_mem s tx h
    have hc2 : (onTransaction s tx).knownTxns.contains tx.txHash = true := by
      rw [hstep]
      simp
    have hsecond : onTransaction (onTransaction s tx) tx = onTransaction s tx := by
      rw [onTransaction, if_pos hc2]
    refine ⟨hsecond, fun _ => ?_⟩
    rw [hsecond, hstep]

/-- Claim C2 (witness): instance of the amended idempotence at the pristine
state and a fresh transaction of amount 5. -/
theorem onTransaction_idempotent_witness :
    dupTx.txHash ∉ initialState.knownTxns ∧
    (onTransaction (onTransaction initialState dupTx) dupTx).wallet.walletBalance
      = initialState.wallet.walletBalance + dupTx.amount :=
  ⟨by decide, (onTransaction_idempotent initialState dupTx).2 (by decide)⟩

/-- Claim C4 (counterexample): the sequence consisting of the single
transaction `(txHash 'h', amount 5)` has pairwise-distinct hashes, yet
applied to a state that already knows hash `'h'` the final `walletBalance`
differs from initial-plus-sum. -/
theorem applyTxns_distinct_sum_cex :
    ([dupTx].map Transaction.txHash).Nodup ∧
    (applyTxns preloadedState [dupTx]).wallet.walletBalance ≠
      preloadedState.wallet.walletBalance + ([dupTx].map Transaction.amount).sum := by
  constructor
  · decide
  · decide

/-- Claim C4 (amended): for every finite sequence of `onTransaction` calls
whose transactions have pairwise-distinct hashes, none of which is already
in the state's known-transaction list, the final `walletBalance` is the
initial one plus the sum of all amounts, independently of the order of the
calls. -/
theorem applyTxns_distinct_sum (s : NodeStoreState) (txs : List Transaction)
    (hnodup : (txs.map Transaction.txHash).Nodup)
    (hfresh : ∀ tx ∈ txs, tx.txHash ∉ s.knownTxns) :
    (applyTxns s txs).wallet.walletBalance
      = s.wallet.walletBalance + (txs.map Transaction.amount).sum ∧
    ∀ txs2 : List Transaction, txs2.Perm txs →
      (applyTxns s txs2).wallet.walletBalance
        = (applyTxns s txs).wallet.walletBalance := by
  have h1 := applyTxns_balance txs s hnodup hfresh
  refine ⟨h1, fun txs2 hperm => ?_⟩
  have hnodup2 : (txs2.map Transaction.txHash).Nodup :=
    (hperm.map Transaction.txHash).nodup_iff.mpr hnodup
  have hfresh2 : ∀ tx ∈ txs2, tx.txHash ∉ s.knownTxns := fun tx hm =>
    hfresh tx (hperm.mem_iff.mp hm)
  rw [h1, applyTxns_balance txs2 s hnodup2 hfresh2,
    (hperm.map Transaction.amount).sum_eq]

/-- Claim C4 (witness): instance of the amended sum law on a two-element
sequence (amounts 5 and −2) applied to the pristine state. -/
theorem applyTxns_distinct_sum_witness :
    (applyTxns initialState
        [{ txHash := "a", amount := 5 }, { txHash := "b", amount := -2 }]).wallet.walletBalance
      = initialState.wallet.walletBalance +
        (([{ txHash := "a", amount := 5 },
           { txHash := "b", amount := -2 }] : List Transaction).map
          Transaction.amount).sum :=
  (applyTxns_distinct_sum initialState
    [{ txHash := "a", amount := 5 }, { txHash := "b", amount := -2 }]
    (by decide) (by decide)).1

/-- Claim C5: `fetchBalancesThrottled` is a trailing-edge 2000 ms debounce
of `fetchBalances` with no leading-edge call: for the calls at
t = 0, 100, 1900 ms exactly one underlying fetch fires, at t = 3900 ms, and
for every chronological call sequence consecutive underlying invocations are
at least 2000 ms apart (at most one per trailing 2-second window; calls
inside the window only reschedule the single pending invocation). -/
theorem fetchBalancesThrottled_debounce (calls : List Nat)
    (hsorted : List.Chain' (· ≤ ·) calls) :
    fetchBalancesThrottledFireTimes [0, 100, 1900] = [3900] ∧
    List.Chain' (fun a b => a + 2000 ≤ b) (fetchBalancesThrottledFireTimes calls) :=
  ⟨rfl, debounceFireTimes_spacing 2000 calls hsorted⟩

/-- Claim C5 (witness): the debounce law instantiated at the call sequence
t = 0, 100, 1900 ms of the claim's scenario. -/
theorem fetchBalancesThrottled_debounce_witness :
    List.Chain' (· ≤ ·) [0, 100, 1900] ∧
    fetchBalancesThrottledFireTimes [0, 100, 1900] = [3900] :=
  ⟨by simp [List.chain'_cons],
   (fetchBalancesThrottled_debounce [0, 100, 1900] (by simp [List.chain'_cons])).1⟩

/-- Claim C7 (counterexample): the url `'pk@'` is non-empty and does contain
the separator `'@'`, yet `urlLabel` yields the empty string rather than the
ellipsed pubkey followed by `'@'` and the (empty) host, because the
destructured host is falsy. -/
theorem urlLabel_trailing_at_cex :
    ({ url := "pk@" } : NodeStoreState).url ≠ "" ∧
    '@' ∈ ({ url := "pk@" } : NodeStoreState).url.toList ∧
    urlLabel { url := "pk@" } = "" ∧
    ellipseInside "pk" ++ "@" ++ "" ≠ "" := by
  refine ⟨by decide, by decide, rfl, by decide⟩

/-- Claim C7 (amended): `urlLabel` is empty when `url` is empty, when it
contains no `'@'` separator, or when the segment directly after the first
`'@'` is empty; otherwise it is the ellipsed first segment, `'@'`, and that
following segment. -/
theorem urlLabel_amended (s : NodeStoreState) :
    (s.url = "" → urlLabel s = "") ∧
    ('@' ∉ s.url.toList → urlLabel s = "") ∧
    (∀ (pk host : List Char) (rest : List (List Char)),
      splitChar '@' s.url.toList = pk :: host :: rest →
      urlLabel s =
        if host = [] then ""
        else ellipseInside (String.mk pk) ++ "@" ++ String.mk host) := by
  refine ⟨?_, ?_, fun pk host rest h => urlLabel_of_split s pk host rest h⟩
  · intro hu
    rw [urlLabel, if_pos hu]
  · intro hnm
    by_cases hu : s.url = ""
    · rw [urlLabel, if_pos hu]
    · rw [urlLabel, if_neg hu, splitChar_of_not_mem '@' s.url.toList hnm]

/-- Claim C7 (witness): the amended characterisation instantiated at the
well-formed url `'ab@cd'`. -/
theorem urlLabel_amended_witness :
    splitChar '@' ({ url := "ab@cd" } : NodeStoreState).url.toList
      = "ab".toList :: "cd".toList :: [] ∧
    urlLabel { url := "ab@cd" }
      = if "cd".toList = ([] : List Char) then ""
        else ellipseInside (String.mk "ab".toList) ++ "@" ++ String.mk "cd".toList :=
  ⟨by decide,
   (urlLabel_amended { url := "ab@cd" }).2.2 "ab".toList "cd".toList [] (by decide)⟩

/-- Claim C10 (counterexample): the url `'a@@c'` contains two `'@'`
characters, but `urlLabel` yields the empty string, not the ellipsed first
segment followed by `'@'` and the (empty) second segment. -/
theorem urlLabel_multiple_at_cex :
    2 ≤ ({ url := "a@@c" } : NodeStoreState).url.toList.count '@' ∧
    urlLabel { url := "a@@c" } = "" ∧
    ellipseInside "a" ++ "@" ++ "" ≠ "" := by
  refine ⟨by decide, rfl, by decide⟩

/-- Claim C10 (amended): for every url with more than one `'@'`, provided
the segment between the first and second `'@'` is non-empty, `urlLabel`
returns the ellipsed first segment, `'@'`, and that second segment only,
silently dropping everything after the second `'@'`; when that middle
segment is empty the result is the empty string instead (see the
counterexample). -/
theorem urlLabel_multiple_at (s : NodeStoreState) (pk host : List Char)
    (rest : List (List Char))
    (hsplit : splitChar '@' s.url.toList = pk :: host :: rest)
    (hrest : rest ≠ []) (hhost : host ≠ []) :
    2 ≤ s.url.toList.count '@' ∧
    urlLabel s = ellipseInside (String.mk pk) ++ "@" ++ String.mk host := by
  constructor
  · have hlen := splitChar_length '@' s.url.toList
    rw [hsplit] at hlen
    simp only [List.length_cons] at hlen
    have hpos : 0 < rest.length := List.length_pos.mpr hrest
    omega
  · rw [urlLabel_of_split s pk host rest hsplit, if_neg hhost]

/-- Claim C10 (witness): the amended multi-`'@'` law instantiated at the url
`'a@b@c'`: the label is `'a@b'`, dropping `'@c'`. -/
theorem urlLabel_multiple_at_witness :
    2 ≤ ({ url := "a@b@c" } : NodeStoreState).url.toList.count '@' ∧
    urlLabel { url := "a@b@c" }
      = ellipseInside (String.mk "a".toList) ++ "@" ++ String.mk "b".toList :=
  urlLabel_multiple_at { url := "a@b@c" } "a".toList "b".toList ["c".toList]
    (by decide) (by decide) (by decide)

/-- Claim C3: `fetchBalances` is all-or-nothing: when the first RPC
(`channelBalance`) rejects — whatever the second outcome would have been —
or when the second RPC (`walletBalance`) rejects after the first succeeded,
the state (in particular `wallet.channelBalance`) is exactly its pre-call
value. -/
theorem fetchBalances_all_or_nothing (s : NodeStoreState) (e1 e2 : String)
    (onChain : Except String WalletBalanceResponse) (off : ChannelBalanceResponse) :
    fetchBalances s (Except.error e1) onChain = s ∧
    fetchBalances s (Except.ok off) (Except.error e2) = s :=
  ⟨rfl, rfl⟩

/-- Claim C6: `useStore` and `useActions` each fail with their fixed
descriptive message when no Provider ancestor supplied a context value, and
inside a Provider they return exactly the store and actions of the enclosing
Provider's context. -/
theorem useStore_useActions_resolution :
    useStore none = Except.error "useStore must be used within a StoreProvider." ∧
    useActions none = Except.error "useActions must be used within a StoreProvider." ∧
    (∀ data : ContextData,
      useStore (some data) = Except.ok data.store ∧
      useActions (some data) = Except.ok data.actions) ∧
    (∀ (store : Store) (acts : Option StoreActions),
      useStore (some (storeProvider store acts)) = Except.ok store) :=
  ⟨rfl, rfl, fun _ => ⟨rfl, rfl⟩, fun _ _ => rfl⟩

/-- Claim C8: `copy` is effect-only on the store state: for every key and
state it leaves every `NodeStore` field unchanged, and its effects are
exactly the delegated clipboard write of the selected field and one success
notification. -/
theorem copy_frame (s : NodeStoreState) (key : CopyKey) :
    (copy s key).1 = s ∧
    (copy s key).2 =
      [Effect.clipboardWrite (copyValue s key),
       Effect.notify ("Copied " ++ key.name ++ " to clipboard") "" "success"] :=
  ⟨rfl, rfl⟩

/-- Claim C9: `onTransaction` mutates only `walletBalance` and the
known-transaction list: `pubkey`, `alias`, `url`, `chain`, `network` and
`wallet.channelBalance` are unchanged. -/
theorem onTransaction_frame (s : NodeStoreState) (tx : Transaction) :
    (onTransaction s tx).pubkey = s.pubkey ∧
    (onTransaction s tx).«alias» = s.«alias» ∧
    (onTransaction s tx).url = s.url ∧
    (onTransaction s tx).chain = s.chain ∧
    (onTransaction s tx).network = s.network ∧
    (onTransaction s tx).wallet.channelBalance = s.wallet.channelBalance := by
  unfold onTransaction
  split <;> simp

end LNT
